import Mathlib

/-!
Shallow embedding of the context-window expansion and merge engine of
`server/knowledge_base/kb_service/AnalyticDB.py` (class `AnalyticDB`),
centred on `my_similarity_search_with_score_by_vector_context`, together
with the SQL-text construction of `get_search_result_from_database` and
the collection-binding checks of the public store operations.

Modelling conventions:
* a table row (one chunk, together with its `l2_distance` to the fixed
  query embedding of the current search) is a `Row`;
* the table is a `List Row`; the SQL range reads `ORDER BY id` /
  `ORDER BY id DESC` are modelled by filtering and sorting by id;
* Python `str` lengths are `String.length`, distances are `Nat`
  (the algorithm only ever compares distances);
* the Python dict `id_map` is a cons-list, so that `List.lookup`
  returns the most recent binding, as dict assignment does;
* the Python set `id_set` is a duplicate-free `List Int` grown by
  `setInsert` (insert-if-absent), so that every operation reduces
  in the kernel.
-/

/-- One row of the collection table, as returned by the range reads of
`my_similarity_search_with_score_by_vector_context`: the chunk id, the
chunk text (`document`), the owning file (`filename`), the JSONB chunk
metadata, and the row's `l2_distance` to the query embedding. -/
structure Row where
  id : Int
  document : String
  filename : String
  metadata : List (String × String)
  distance : Nat
deriving DecidableEq, Repr

/-- The shared accumulation state of one query: `id_set` and `id_map`
of `my_similarity_search_with_score_by_vector_context`. -/
structure AccState where
  idSet : List Int
  idMap : List (Int × Row)
deriving DecidableEq, Repr

/-- Python `set.add`: insert an id unless it is already present. -/
def setInsert (x : Int) (l : List Int) : List Int :=
  if x ∈ l then l else x :: l

/-- Insert into a list sorted by `le` (helper of `sortBy`). -/
def insertBy (le : α → α → Bool) (a : α) : List α → List α
  | [] => [a]
  | b :: bs => if le a b then a :: b :: bs else b :: insertBy le a bs

/-- Insertion sort by a boolean relation; models SQL `ORDER BY`. -/
def sortBy (le : α → α → Bool) : List α → List α
  | [] => []
  | a :: as => insertBy le a (sortBy le as)

/-- Python `t_result.filename.lower().endswith(".md")`, expressed on the
character list of the string so that it evaluates in the kernel. -/
def isMd (s : String) : Bool :=
  ['.', 'm', 'd'].isSuffixOf (s.data.map Char.toLower)

/-- Ascending range read: ids in `[lo, hi]`, `ORDER BY id`. -/
def rangeAsc (db : List Row) (lo hi : Int) : List Row :=
  sortBy (fun a b => decide (a.id ≤ b.id))
    (db.filter (fun r => decide (lo ≤ r.id ∧ r.id ≤ hi)))

/-- Descending range read: ids in `[lo, hi]`, `ORDER BY id DESC`. -/
def rangeDesc (db : List Row) (lo hi : Int) : List Row :=
  sortBy (fun a b => decide (b.id ≤ a.id))
    (db.filter (fun r => decide (lo ≤ r.id ∧ r.id ≤ hi)))

example : isMd "A.MD" = true := by decide
example : isMd "a.txt" = false := by decide
example : rangeAsc [⟨3, "c", "f", [], 0⟩, ⟨1, "a", "f", [], 0⟩] 1 3
    = [⟨1, "a", "f", [], 0⟩, ⟨3, "c", "f", [], 0⟩] := by decide
example : rangeDesc [⟨3, "c", "f", [], 0⟩, ⟨1, "a", "f", [], 0⟩] 1 3
    = [⟨3, "c", "f", [], 0⟩, ⟨1, "a", "f", [], 0⟩] := by decide

/-- Modelled from the spec: the `md_headers` table imported from
`text_splitter/markdown_splitter.py` (that file is not under `src/`).
The expansion loop iterates `range(len(md_headers) - 1, -1, -1)`, i.e.
six heading levels; each entry pairs a markdown marker with the
metadata key carrying that level's heading text (spec section 9:
"a small ordered list of optional leveled string fields"). -/
def md_headers : List (String × String) :=
  [("#", "Header 1"), ("##", "Header 2"), ("###", "Header 3"),
   ("####", "Header 4"), ("#####", "Header 5"), ("######", "Header 6")]

/-- One iteration of the heading-consistency loop: header `hd` rejects
candidate `t` against seed `seed` when both carry `hd` with different
values, or the seed carries `hd` and the candidate does not. -/
def headerBad (seed t : Row) (hd : String) : Bool :=
  ((t.metadata.lookup hd).isSome && (seed.metadata.lookup hd).isSome
      && decide (t.metadata.lookup hd ≠ seed.metadata.lookup hd))
    || ((seed.metadata.lookup hd).isSome && (t.metadata.lookup hd).isNone)

/-- The whole heading-consistency check (`for h in range(len(md_headers)
- 1, -1, -1)` with early `break`): some header level rejects. -/
def mdConflict (seed t : Row) : Bool :=
  (md_headers.reverse).any (fun p => headerBad seed t p.2)

/-- Distance of the `n`-th element of a batch (total version of
`results[n].distance`; the walk only evaluates it in bounds). -/
def distAt (l : List Row) (n : Nat) : Nat :=
  ((l[n]?).map Row.distance).getD 0

/-- The merge-walk's choice of side, from the `while` body: if the left
side is unavailable pick right; else if the right side is unavailable
pick left; else pick right exactly when
`right_results[j].distance <= left_results[i].distance`. -/
def pickRight (L R : List Row) (i j : Nat) (lDead rDead : Bool) : Bool :=
  if lDead = true ∨ L.length ≤ i then true
  else if rDead = true ∨ R.length ≤ j then false
  else decide (distAt R j ≤ distAt L i)

/-- Processing one picked candidate `t` (the body after the pick):
returns the new `docs_len`, the new accumulation state, and whether the
picked side is now exhausted (Python `i/j = sys.maxsize`).
Check order is the source's: budget/same-file first, then the
heading-consistency check for markdown files, then the duplicate skip,
then absorption. -/
def ctxStep (cs : Nat) (seed t : Row) (dl : Nat) (st : AccState) :
    Nat × AccState × Bool :=
  if cs < dl + t.document.length ∨ t.filename ≠ seed.filename then
    (dl, st, true)
  else if isMd t.filename = true ∧ mdConflict seed t = true then
    (dl, st, true)
  else if t.id ∈ st.idSet then
    (dl, st, false)
  else
    (dl + t.document.length,
      ⟨setInsert t.id st.idSet, (t.id, t) :: st.idMap⟩, false)

/-- The merge-walk over one pass's two batches (`while i <
len(left_results) or j < len(right_results)`).  `i`/`j` are the batch
indices, `lDead`/`rDead` model `i/j = sys.maxsize`.  The walk consumes
one batch element per iteration, so `fuel = L.length + R.length`
(supplied by `expandLoop`) never runs out before the loop condition
fails; the `none` branch of the index lookup is unreachable. -/
def ctxWalk (cs : Nat) (seed : Row) (L R : List Row) :
    Nat → Nat → Nat → Bool → Bool → Nat → AccState →
    Nat × AccState × Bool × Bool
  | 0, _i, _j, lDead, rDead, dl, st => (dl, st, lDead, rDead)
  | fuel + 1, i, j, lDead, rDead, dl, st =>
    if (lDead = false ∧ i < L.length) ∨ (rDead = false ∧ j < R.length) then
      let goRight := pickRight L R i j lDead rDead
      match (if goRight then R[j]? else L[i]?) with
      | none => (dl, st, lDead, rDead)
      | some t =>
        let s := ctxStep cs seed t dl st
        ctxWalk cs seed L R fuel
          (if goRight then i else i + 1) (if goRight then j + 1 else j)
          (if goRight then lDead else s.2.2)
          (if goRight then s.2.2 else rDead)
          s.1 s.2.1
    else (dl, st, lDead, rDead)

/-- Python `range(start, stop, step)` for a positive `step`. -/
def pyRange (start stop step : Int) : List Int :=
  (List.range ((stop - start + step - 1) / step).toNat).map
    (fun (n : Nat) => start + step * (n : Int))

/-- The widening loop of one seed (`for width in range(10, max_id +
batch_size, batch_size)` with `batch_size = 20`): top-of-loop break once
both cursors left the store-wide id range, the two range reads, the
per-pass merge-walk (empty batches start exhausted), the bottom-of-loop
break once both sides are exhausted, and the cursor update.  Returns the
final `docs_len` and accumulation state. -/
def expandLoop (db : List Row) (cs : Nat) (maxId minId : Int) (seed : Row) :
    List Int → Int → Int → Nat → AccState → Nat × AccState
  | [], _, _, dl, st => (dl, st)
  | w :: ws, lastL, lastR, dl, st =>
    if lastL < minId ∧ lastR > maxId then (dl, st)
    else
      let L := rangeDesc db (seed.id - w) lastL
      let R := rangeAsc db lastR (seed.id + w)
      let res := ctxWalk cs seed L R (L.length + R.length) 0 0
        (decide (L.length = 0)) (decide (R.length = 0)) dl st
      if res.2.2.1 = true ∧ res.2.2.2 = true then (res.1, res.2.1)
      else
        expandLoop db cs maxId minId seed ws
          (seed.id - w - 1) (seed.id + w + 1) res.1 res.2.1

/-- Recording a seed hit into the shared state (`id_set.add(result.id)`;
`id_map[result.id] = result`). -/
def recordSeed (st : AccState) (seed : Row) : AccState :=
  ⟨setInsert seed.id st.idSet, (seed.id, seed) :: st.idMap⟩

/-- One iteration of the `for result in results` loop: record the seed,
initialise `docs_len` to the seed text's length and the cursors to
`id - 1` / `id + 1`, then run the widening loop.  Returns the final
`docs_len` alongside the state (the source discards the former at the
end of the iteration). -/
def expandSeedDL (db : List Row) (cs : Nat) (maxId minId : Int)
    (st : AccState) (seed : Row) : Nat × AccState :=
  expandLoop db cs maxId minId seed (pyRange 10 (maxId + 20) 20)
    (seed.id - 1) (seed.id + 1) seed.document.length
    (recordSeed st seed)

/-- One iteration of the seed loop, keeping only the accumulation
state. -/
def expandSeed (db : List Row) (cs : Nat) (maxId minId : Int)
    (st : AccState) (seed : Row) : AccState :=
  (expandSeedDL db cs maxId minId st seed).2

/-- The whole seed loop over one shared accumulation state. -/
def contextExpand (db : List Row) (cs : Nat) (maxId minId : Int)
    (seeds : List Row) : AccState :=
  seeds.foldl (expandSeed db cs maxId minId) ⟨[], []⟩

/-- `select max(id)` over the table, `None` mapped to `0`. -/
def maxIdOf (db : List Row) : Int :=
  match db.map Row.id with
  | [] => 0
  | x :: xs => xs.foldl max x

/-- `select min(id)` over the table, `None` mapped to `0`. -/
def minIdOf (db : List Row) : Int :=
  match db.map Row.id with
  | [] => 0
  | x :: xs => xs.foldl min x

/-- Modelled from the spec: `runsAux`/`runsOf` realise the contract of
`merge_ids` from `server/knowledge_base/kb_service/utils.py` (that file
is not under `src/`): scan the sorted ids once, extending the current
run while the next id is exactly one greater, else closing it
(spec section 4.2). -/
def runsAux : List Int → Int → List Int → List (List Int)
  | [], _, cur => [cur.reverse]
  | y :: ys, prev, cur =>
    if y = prev + 1 then runsAux ys y (y :: cur)
    else cur.reverse :: runsAux ys y [y]

/-- Modelled from the spec: partition a list of ids, already sorted
ascending, into maximal runs of consecutive integers. -/
def runsOf : List Int → List (List Int)
  | [] => []
  | x :: xs => runsAux xs x [x]

/-- Modelled from the spec: `merge_ids` — sort the absorbed ids
ascending and partition them into maximal consecutive runs. -/
def merge_ids (ids : List Int) : List (List Int) :=
  runsOf (sortBy (fun a b => decide (a ≤ b)) ids)

/-- Text of one run: the mapped chunks' text concatenated in ascending
id order (spec section 4.3). -/
def runText (idMap : List (Int × Row)) (run : List Int) : String :=
  String.join (run.map (fun i => ((idMap.lookup i).map Row.document).getD ""))

/-- Representative score of one run: the minimum distance over the
run's mapped chunks (spec section 4.3; in this embedding every mapped
row carries its distance to the query embedding). -/
def runScore (idMap : List (Int × Row)) (run : List Int) : Nat :=
  match run.map (fun i => ((idMap.lookup i).map Row.distance).getD 0) with
  | [] => 0
  | d :: ds => ds.foldl min d

/-- Modelled from the spec: `generate_doc_with_score` from
`server/knowledge_base/kb_service/utils.py` (not under `src/`) — one
scored document per run, ordered by score ascending
(spec section 4.3). -/
def generate_doc_with_score (idSeqs : List (List Int))
    (idMap : List (Int × Row)) : List (String × Nat) :=
  sortBy (fun a b => decide (a.2 ≤ b.2))
    (idSeqs.map (fun run => (runText idMap run, runScore idMap run)))

/-- `my_similarity_search_with_score_by_vector_context` after the seed
hits have been fetched: compute the store-wide id extremes, expand every
seed over one shared state, return `[]` for an empty id set, else merge
the ids into runs and assemble the scored documents. -/
def my_similarity_search_context (db : List Row) (cs : Nat)
    (seeds : List Row) : List (String × Nat) :=
  let st := contextExpand db cs (maxIdOf db) (minIdOf db) seeds
  if st.idSet = [] then []
  else generate_doc_with_score (merge_ids st.idSet) st.idMap

/-- The widening loop with the two range reads performed through a
fallible gateway `gw lo hi desc` (the `engine.connect` / `execute`
calls can raise).  An error from either read propagates out of the
loop, exactly as a Python exception would. -/
def expandLoopE (gw : Int → Int → Bool → Except String (List Row))
    (cs : Nat) (maxId minId : Int) (seed : Row) :
    List Int → Int → Int → Nat → AccState → Except String (Nat × AccState)
  | [], _, _, dl, st => .ok (dl, st)
  | w :: ws, lastL, lastR, dl, st =>
    if lastL < minId ∧ lastR > maxId then .ok (dl, st)
    else
      match gw (seed.id - w) lastL true with
      | .error e => .error e
      | .ok L =>
        match gw lastR (seed.id + w) false with
        | .error e => .error e
        | .ok R =>
          let res := ctxWalk cs seed L R (L.length + R.length) 0 0
            (decide (L.length = 0)) (decide (R.length = 0)) dl st
          if res.2.2.1 = true ∧ res.2.2.2 = true then .ok (res.1, res.2.1)
          else
            expandLoopE gw cs maxId minId seed ws
              (seed.id - w - 1) (seed.id + w + 1) res.1 res.2.1

/-- The seed loop over a fallible gateway: there is no `try`/`except`
around a seed's expansion in the source, so a failed range read aborts
the whole loop and the error reaches the caller. -/
def contextSearchE (gw : Int → Int → Bool → Except String (List Row))
    (cs : Nat) (maxId minId : Int) :
    List Row → AccState → Except String AccState
  | [], st => .ok st
  | seed :: rest, st =>
    match expandLoopE gw cs maxId minId seed (pyRange 10 (maxId + 20) 20)
        (seed.id - 1) (seed.id + 1) seed.document.length
        (recordSeed st seed) with
    | .error e => .error e
    | .ok res => contextSearchE gw cs maxId minId rest res.2

/-- The gateway that executes the range reads against an in-memory
table and never fails; instantiating `expandLoopE` with it recovers
`expandLoop`. -/
def dbGateway (db : List Row) : Int → Int → Bool → Except String (List Row) :=
  fun lo hi desc => .ok (cond desc (rangeDesc db lo hi) (rangeAsc db lo hi))

/-- A single-quote character (Python `repr` quoting). -/
def pyQuote : String := String.singleton (Char.ofNat 39)

/-- Python `repr` of a plain string value, as used by the f-string
`f"metadata->>{key!r} = {value!r}"` (values without quotes or escapes,
which is all the theorems below use, are rendered verbatim between
single quotes). -/
def pyRepr (s : String) : String := pyQuote ++ s ++ pyQuote

/-- The `filter_condition` string built by
`get_search_result_from_database`: empty without a filter, else
`WHERE` plus the ` AND `-joined interpolated equality conditions. -/
def filter_condition : Option (List (String × String)) → String
  | none => ""
  | some kvs =>
    "WHERE " ++ String.intercalate " AND "
      (kvs.map (fun kv => "metadata->>" ++ pyRepr kv.1 ++ " = " ++ pyRepr kv.2))

/-- The full `sql_query` text of `get_search_result_from_database`
(whitespace normalised): only `:embedding` and `:k` are bound
parameters; the collection name and the filter condition are
interpolated into the text. -/
def sql_query_text (collection : String)
    (f : Option (List (String × String))) : String :=
  "SELECT *, l2_distance(embedding, :embedding) as distance FROM "
    ++ collection ++ " " ++ filter_condition f
    ++ " ORDER BY embedding <-> :embedding LIMIT :k"

/-- The message of the exception raised when no collection is bound
(`raise Exception("尚未绑定知识库")`). -/
def bindErr : String := "尚未绑定知识库"

/-- `my_similarity_search_with_score_by_vector_context` as a store
operation: `self.__collection_table is None` raises before anything
else; otherwise the search runs against the bound table.  The seed hits
(the `knn` result) are a parameter, as the nearest-neighbour index is
an external collaborator. -/
def my_similarity_search_op (table : Option (List Row)) (cs : Nat)
    (seeds : List Row) : Except String (List (String × Nat)) :=
  match table with
  | none => .error bindErr
  | some db => .ok (my_similarity_search_context db cs seeds)

/-- `add_texts` as a store operation: the collection check comes first,
before the embedding call and the inserts; a metadata entry without
`source` raises the `KeyError`; otherwise the ids are returned.
`embed` stands for the external embedding function. -/
def add_texts_op (table : Option Unit) (embed : List String → List (List Int))
    (texts : List String) (metadatas : List (List (String × String)))
    (ids : List String) : Except String (List String) :=
  match table with
  | none => .error bindErr
  | some _ =>
    let _embeddings := embed texts
    if metadatas.all (fun m => (m.lookup "source").isSome) then .ok ids
    else .error "导入的文本没有source，请检查load_file调用的textsplitter"

/-- `delete` as a store operation: the collection check comes first,
then `ids is None` raises the `ValueError`, then the delete runs. -/
def delete_op (table : Option Unit) (ids : Option (List String)) :
    Except String Bool :=
  match table with
  | none => .error bindErr
  | some _ =>
    match ids with
    | none => .error "No ids provided to delete."
    | some _ => .ok true

/-- `list_docs` as a store operation: the collection check comes first,
then the distinct filenames of the bound table are listed. -/
def list_docs_op (table : Option (List Row)) : Except String (List String) :=
  match table with
  | none => .error bindErr
  | some db => .ok ((db.map Row.filename).eraseDups)

/-! ### Helper lemmas about the embedding's containers -/

theorem mem_insertBy {α : Type} {le : α → α → Bool} {b a : α} :
    ∀ {l : List α}, a ∈ insertBy le b l ↔ a = b ∨ a ∈ l := by
  intro l
  induction l with
  | nil => simp [insertBy]
  | cons c cs ih =>
    simp only [insertBy]
    split
    · simp
    · simp only [List.mem_cons, ih]
      tauto

theorem mem_sortBy {α : Type} {le : α → α → Bool} {a : α} :
    ∀ {l : List α}, a ∈ sortBy le l ↔ a ∈ l := by
  intro l
  induction l with
  | nil => simp [sortBy]
  | cons c cs ih => simp [sortBy, mem_insertBy, ih]

theorem mem_rangeAsc {db : List Row} {lo hi : Int} {r : Row} :
    r ∈ rangeAsc db lo hi ↔ r ∈ db ∧ lo ≤ r.id ∧ r.id ≤ hi := by
  simp [rangeAsc, mem_sortBy, List.mem_filter]

theorem mem_rangeDesc {db : List Row} {lo hi : Int} {r : Row} :
    r ∈ rangeDesc db lo hi ↔ r ∈ db ∧ lo ≤ r.id ∧ r.id ≤ hi := by
  simp [rangeDesc, mem_sortBy, List.mem_filter]

theorem getElem?_some_mem {α : Type} {l : List α} {n : Nat} {a : α}
    (h : l[n]? = some a) : a ∈ l := by
  obtain ⟨hn, he⟩ := List.getElem?_eq_some.mp h
  exact he ▸ List.getElem_mem hn

theorem mem_setInsert {x y : Int} {l : List Int} :
    y ∈ setInsert x l ↔ y = x ∨ y ∈ l := by
  by_cases h : x ∈ l
  · simp only [setInsert, if_pos h]
    constructor
    · exact Or.inr
    · rintro (rfl | hy)
      · exact h
      · exact hy
  · simp [setInsert, if_neg h]

/-! ### Generic invariants of the merge-walk and the widening loop -/

theorem ctxWalk_inv (cs : Nat) (seed : Row) (L R : List Row)
    (P : Nat → AccState → Prop)
    (hstep : ∀ t, (t ∈ L ∨ t ∈ R) → ∀ dl st, P dl st →
      P (ctxStep cs seed t dl st).1 (ctxStep cs seed t dl st).2.1) :
    ∀ fuel i j lD rD dl st, P dl st →
      P (ctxWalk cs seed L R fuel i j lD rD dl st).1
        (ctxWalk cs seed L R fuel i j lD rD dl st).2.1 := by
  intro fuel
  induction fuel with
  | zero => intro i j lD rD dl st h; simpa [ctxWalk] using h
  | succ n ih =>
    intro i j lD rD dl st h
    simp only [ctxWalk]
    split
    · split
      · exact h
      · next t heq =>
        have ht : t ∈ L ∨ t ∈ R := by
          by_cases hg : pickRight L R i j lD rD = true
          · right
            exact getElem?_some_mem (by simpa [hg] using heq)
          · left
            exact getElem?_some_mem (by simpa [hg] using heq)
        exact ih _ _ _ _ _ _ (hstep t ht dl st h)
    · exact h

theorem expandLoop_inv (db : List Row) (cs : Nat) (maxId minId : Int)
    (seed : Row) (P : Nat → AccState → Prop)
    (hstep : ∀ t, t ∈ db → ∀ dl st, P dl st →
      P (ctxStep cs seed t dl st).1 (ctxStep cs seed t dl st).2.1) :
    ∀ ws lastL lastR dl st, P dl st →
      P (expandLoop db cs maxId minId seed ws lastL lastR dl st).1
        (expandLoop db cs maxId minId seed ws lastL lastR dl st).2 := by
  intro ws
  induction ws with
  | nil => intro lastL lastR dl st h; simpa [expandLoop] using h
  | cons w ws ih =>
    intro lastL lastR dl st h
    have hwalk := ctxWalk_inv cs seed
      (rangeDesc db (seed.id - w) lastL) (rangeAsc db lastR (seed.id + w)) P
      (fun t ht dl' st' h' => hstep t
        (ht.elim (fun hl => (mem_rangeDesc.mp hl).1) (fun hr => (mem_rangeAsc.mp hr).1))
        dl' st' h')
    simp only [expandLoop]
    split
    · exact h
    · split
      · exact hwalk _ _ _ _ _ _ _ h
      · exact ih _ _ _ _ (hwalk _ _ _ _ _ _ _ h)

/-! ### C1: the docs_len budget bound -/

theorem ctxStep_docsLen (cs : Nat) (seed t : Row) (dl : Nat) (st : AccState) :
    (ctxStep cs seed t dl st).1 = dl ∨ (ctxStep cs seed t dl st).1 ≤ cs := by
  unfold ctxStep
  split
  · exact Or.inl rfl
  · next hnot =>
    split
    · exact Or.inl rfl
    · split
      · exact Or.inl rfl
      · right
        push_neg at hnot
        omega

/-- C1 (amended): after a seed's expansion the running total `docs_len`
never exceeds the larger of the budget (`chunk_size`) and the seed's own
text length.  The budget check runs before absorption, so an absorption
never pushes `docs_len` above the budget at all; only a seed whose own
text already exceeds the budget leaves `docs_len` above it, and then by
the seed's full excess, not by a rejected candidate's length. -/
theorem C1_docsLen_bound (db : List Row) (cs : Nat) (maxId minId : Int)
    (st : AccState) (seed : Row) :
    (expandSeedDL db cs maxId minId st seed).1 ≤ max seed.document.length cs := by
  have h := expandLoop_inv db cs maxId minId seed
      (fun dl _ => dl = seed.document.length ∨ dl ≤ cs)
      (fun t _ dl' st' hP => by
        rcases ctxStep_docsLen cs seed t dl' st' with h1 | h1
        · rw [h1]; exact hP
        · exact Or.inr h1)
      (pyRange 10 (maxId + 20) 20) (seed.id - 1) (seed.id + 1)
      seed.document.length (recordSeed st seed) (Or.inl rfl)
  have he : (expandSeedDL db cs maxId minId st seed).1
      = (expandLoop db cs maxId minId seed (pyRange 10 (maxId + 20) 20)
          (seed.id - 1) (seed.id + 1) seed.document.length
          (recordSeed st seed)).1 := rfl
  rw [he]
  rcases h with h | h
  · rw [h]; exact le_max_left _ _
  · exact le_trans h (le_max_right _ _)

/-- A document of `n` filler characters, for concrete inputs. -/
def xChars (n : Nat) : String := String.mk (List.replicate n 'x')

def c1seed : Row := ⟨100, xChars 50, "a.txt", [], 0⟩

def c1cand : Row := ⟨101, xChars 2, "a.txt", [], 1⟩

def c1db : List Row := [c1seed, c1cand]

/-- C1 counterexample: with budget 10, a seed of length 50 and a single
right neighbour of length 2, the neighbour is the rejected candidate
that exhausts its side, yet the final `docs_len` (50) exceeds the
budget by 40, far more than the rejected candidate's length 2. -/
theorem C1_counterexample :
    (ctxStep 10 c1seed c1cand 50 (recordSeed ⟨[], []⟩ c1seed)).2.2 = true
    ∧ (expandSeedDL c1db 10 (maxIdOf c1db) (minIdOf c1db) ⟨[], []⟩ c1seed).1 = 50
    ∧ 10 + c1cand.document.length
      < (expandSeedDL c1db 10 (maxIdOf c1db) (minIdOf c1db) ⟨[], []⟩ c1seed).1 := by
  decide

/-! ### C2: what side exhaustion does and does not persist over -/

theorem ctxStep_idSet_cases (cs : Nat) (seed t : Row) (dl : Nat) (st : AccState) :
    (ctxStep cs seed t dl st).2.1.idSet = st.idSet
    ∨ (ctxStep cs seed t dl st).2.1.idSet = setInsert t.id st.idSet := by
  unfold ctxStep
  split
  · exact Or.inl rfl
  · split
    · exact Or.inl rfl
    · split
      · exact Or.inl rfl
      · exact Or.inr rfl

theorem ctxWalk_ldead_sub (cs : Nat) (seed : Row) (L R : List Row) :
    ∀ fuel i j rD dl st,
      (ctxWalk cs seed L R fuel i j true rD dl st).2.1.idSet
        ⊆ st.idSet ++ R.map Row.id := by
  intro fuel
  induction fuel with
  | zero =>
    intro i j rD dl st x hx
    simp only [ctxWalk] at hx
    exact List.mem_append_left _ hx
  | succ n ih =>
    intro i j rD dl st
    have hpick : pickRight L R i j true rD = true := by simp [pickRight]
    simp only [ctxWalk, hpick, if_true]
    split
    · split
      · intro x hx
        exact List.mem_append_left _ hx
      · next t heq =>
        intro x hx
        have htR : t ∈ R := getElem?_some_mem heq
        have hx2 := ih i (j + 1) (ctxStep cs seed t dl st).2.2
          (ctxStep cs seed t dl st).1 (ctxStep cs seed t dl st).2.1 hx
        rcases List.mem_append.mp hx2 with hx3 | hx3
        · rcases ctxStep_idSet_cases cs seed t dl st with hc | hc
          · rw [hc] at hx3
            exact List.mem_append_left _ hx3
          · rw [hc] at hx3
            rcases mem_setInsert.mp hx3 with rfl | hx4
            · exact List.mem_append_right _ (List.mem_map_of_mem Row.id htR)
            · exact List.mem_append_left _ hx4
        · exact List.mem_append_right _ hx3
    · intro x hx
      exact List.mem_append_left _ hx

theorem ctxWalk_rdead_sub (cs : Nat) (seed : Row) (L R : List Row) :
    ∀ fuel i j lD dl st,
      (ctxWalk cs seed L R fuel i j lD true dl st).2.1.idSet
        ⊆ st.idSet ++ L.map Row.id := by
  intro fuel
  induction fuel with
  | zero =>
    intro i j lD dl st x hx
    simp only [ctxWalk] at hx
    exact List.mem_append_left _ hx
  | succ n ih =>
    intro i j lD dl st
    simp only [ctxWalk]
    split
    · next hguard =>
      have hl : lD = false ∧ i < L.length := by
        rcases hguard with h | h
        · exact h
        · exact absurd h.1 (by simp)
      have hpick : pickRight L R i j lD true = false := by
        simp [pickRight, hl.1, Nat.not_le.mpr hl.2]
      simp only [hpick, if_false, Bool.false_eq_true]
      split
      · intro x hx
        exact List.mem_append_left _ hx
      · next t heq =>
        intro x hx
        have htL : t ∈ L := getElem?_some_mem heq
        have hx2 := ih (i + 1) j (ctxStep cs seed t dl st).2.2
          (ctxStep cs seed t dl st).1 (ctxStep cs seed t dl st).2.1 hx
        rcases List.mem_append.mp hx2 with hx3 | hx3
        · rcases ctxStep_idSet_cases cs seed t dl st with hc | hc
          · rw [hc] at hx3
            exact List.mem_append_left _ hx3
          · rw [hc] at hx3
            rcases mem_setInsert.mp hx3 with rfl | hx4
            · exact List.mem_append_right _ (List.mem_map_of_mem Row.id htL)
            · exact List.mem_append_left _ hx4
        · exact List.mem_append_right _ hx3
    · intro x hx
      exact List.mem_append_left _ hx

/-- C2 (amended): side exhaustion is scoped to the current widening
pass, not to the remainder of the whole expansion.  Within a pass the
mark is effective: with the left side exhausted every id absorbed during
the rest of the pass comes from the right batch, and symmetrically.
The mark does not survive the pass: the indices are reset at the start
of the next pass, so chunks from the exhausted side's later ranges can
be absorbed again (see the counterexample). -/
theorem C2_exhaustion_is_per_pass (cs : Nat) (seed : Row) (L R : List Row)
    (fuel i j : Nat) (lD rD : Bool) (dl : Nat) (st : AccState) :
    (ctxWalk cs seed L R fuel i j true rD dl st).2.1.idSet
      ⊆ st.idSet ++ R.map Row.id
    ∧ (ctxWalk cs seed L R fuel i j lD true dl st).2.1.idSet
      ⊆ st.idSet ++ L.map Row.id :=
  ⟨ctxWalk_ldead_sub cs seed L R fuel i j rD dl st,
   ctxWalk_rdead_sub cs seed L R fuel i j lD dl st⟩

def c2seed : Row := ⟨100, xChars 10, "a.txt", [], 0⟩

def c2left : Row := ⟨99, xChars 1, "b.txt", [], 5⟩

def c2right : Row := ⟨101, xChars 10, "a.txt", [], 1⟩

def c2far : Row := ⟨85, xChars 10, "a.txt", [], 9⟩

def c2db : List Row := [c2far, c2left, c2seed, c2right]

/-- C2 counterexample: in pass 1 (width 10) the left side is exhausted
by the rejected candidate id 99 (different file), yet the full
expansion of the same seed still absorbs id 85 — a left-side chunk
fetched by a later pass.  Exhaustion does not hold for the remainder of
the whole expansion. -/
theorem C2_counterexample :
    (ctxWalk 1000 c2seed (rangeDesc c2db (c2seed.id - 10) (c2seed.id - 1))
        (rangeAsc c2db (c2seed.id + 1) (c2seed.id + 10))
        ((rangeDesc c2db (c2seed.id - 10) (c2seed.id - 1)).length
          + (rangeAsc c2db (c2seed.id + 1) (c2seed.id + 10)).length)
        0 0 false false c2seed.document.length
        (recordSeed ⟨[], []⟩ c2seed)).2.2.1 = true
    ∧ c2far.id ∈ (contextExpand c2db 1000 (maxIdOf c2db) (minIdOf c2db)
        [c2seed]).idSet
    ∧ c2far.id < c2seed.id := by
  decide

/-! ### C3: source documents within a merged run -/

theorem ctxStep_cases (cs : Nat) (seed t : Row) (dl : Nat) (st : AccState) :
    (ctxStep cs seed t dl st).2.1 = st
    ∨ (t.filename = seed.filename
        ∧ dl + t.document.length ≤ cs
        ∧ (isMd t.filename = true → mdConflict seed t = false)
        ∧ (ctxStep cs seed t dl st).2.1
          = ⟨setInsert t.id st.idSet, (t.id, t) :: st.idMap⟩) := by
  unfold ctxStep
  split
  · exact Or.inl rfl
  · next h1 =>
    push_neg at h1
    split
    · exact Or.inl rfl
    · next h2 =>
      split
      · exact Or.inl rfl
      · right
        refine ⟨h1.2, by omega, ?_, rfl⟩
        intro hm
        by_contra hc
        exact h2 ⟨hm, by simpa using hc⟩

/-- C3 (amended): during one seed's expansion only chunks of the seed's
own source document are absorbed: every id in the state after
`expandSeed` is either an id already present when the seed was recorded
or the id of a table row whose `filename` equals the seed's.  A merged
run can nevertheless span two documents when seeds of different
documents contribute adjacent ids (see the counterexample). -/
theorem C3_per_seed_same_document (db : List Row) (cs : Nat)
    (maxId minId : Int) (st : AccState) (seed : Row) :
    (expandSeed db cs maxId minId st seed).idSet
      ⊆ (recordSeed st seed).idSet
        ++ (db.filter (fun r => decide (r.filename = seed.filename))).map Row.id := by
  have h := expandLoop_inv db cs maxId minId seed
      (fun _ st' => st'.idSet ⊆ (recordSeed st seed).idSet
        ++ (db.filter (fun r => decide (r.filename = seed.filename))).map Row.id)
      (fun t ht dl' st' hP => by
        rcases ctxStep_cases cs seed t dl' st' with hc | ⟨hf, _, _, hc⟩
        · rw [hc]; exact hP
        · rw [hc]
          intro x hx
          rcases mem_setInsert.mp hx with rfl | hx2
          · exact List.mem_append_right _ (List.mem_map_of_mem Row.id
              (List.mem_filter.mpr ⟨ht, by simp [hf]⟩))
          · exact hP hx2)
      (pyRange 10 (maxId + 20) 20) (seed.id - 1) (seed.id + 1)
      seed.document.length (recordSeed st seed)
      (fun x hx => List.mem_append_left _ hx)
  exact h

def c3a : Row := ⟨1, "aaa", "a.txt", [], 0⟩

def c3b : Row := ⟨2, "bbb", "b.txt", [], 1⟩

def c3db : List Row := [c3a, c3b]

/-- C3 counterexample: two seeds with adjacent store-wide ids but
different source documents produce a single merged run `[1, 2]` whose
chunks belong to `a.txt` and `b.txt`, and the assembled document
concatenates text of both files. -/
theorem C3_counterexample :
    merge_ids (contextExpand c3db 100 (maxIdOf c3db) (minIdOf c3db)
        [c3a, c3b]).idSet = [[1, 2]]
    ∧ ((contextExpand c3db 100 (maxIdOf c3db) (minIdOf c3db)
        [c3a, c3b]).idMap.lookup 1).map Row.filename = some "a.txt"
    ∧ ((contextExpand c3db 100 (maxIdOf c3db) (minIdOf c3db)
        [c3a, c3b]).idMap.lookup 2).map Row.filename = some "b.txt"
    ∧ my_similarity_search_context c3db 100 [c3a, c3b] = [("aaabbb", 0)] := by
  decide

/-! ### C4: the markdown heading-consistency rule -/

theorem headerBad_iff (seed t : Row) (hd : String) :
    headerBad seed t hd = true
      ↔ (seed.metadata.lookup hd).isSome = true
        ∧ t.metadata.lookup hd ≠ seed.metadata.lookup hd := by
  unfold headerBad
  cases hs : seed.metadata.lookup hd <;> cases ht : t.metadata.lookup hd <;>
    simp [hs, ht]

theorem mdConflict_iff (seed t : Row) :
    mdConflict seed t = true
      ↔ ∃ p ∈ md_headers, (seed.metadata.lookup p.2).isSome = true
          ∧ t.metadata.lookup p.2 ≠ seed.metadata.lookup p.2 := by
  unfold mdConflict
  rw [List.any_eq_true]
  constructor
  · rintro ⟨p, hp, hb⟩
    exact ⟨p, List.mem_reverse.mp hp, (headerBad_iff seed t p.2).mp hb⟩
  · rintro ⟨p, hp, hb⟩
    exact ⟨p, List.mem_reverse.mpr hp, (headerBad_iff seed t p.2).mpr hb⟩

theorem ctxStep_md_iff (cs : Nat) (seed t : Row) (dl : Nat) (st : AccState)
    (hbudget : dl + t.document.length ≤ cs)
    (hfile : t.filename = seed.filename) (hmd : isMd t.filename = true) :
    (ctxStep cs seed t dl st).2.2 = true ↔ mdConflict seed t = true := by
  unfold ctxStep
  have h1 : ¬(cs < dl + t.document.length ∨ t.filename ≠ seed.filename) := by
    push_neg
    exact ⟨by omega, hfile⟩
  rw [if_neg h1]
  by_cases hc : mdConflict seed t = true
  · rw [if_pos ⟨hmd, hc⟩]
    simpa using hc
  · rw [if_neg (fun h => hc h.2)]
    split
    · simp [hc]
    · simp [hc]

/-- C4: for a candidate that reached the structural check (so it fits
the budget and belongs to the seed's file, hence both sides are the
same markdown source), the check exhausts the candidate's side exactly
when some heading level present in the seed's metadata is missing from
the candidate's metadata or carries a different value; consequently
every entry absorbed into `id_map` during a seed's expansion belongs to
the seed's file and, when it is a markdown file, agrees with the seed
at every heading level the seed defines. -/
theorem C4_markdown_heading_rule :
    (∀ (cs : Nat) (seed t : Row) (dl : Nat) (st : AccState),
        dl + t.document.length ≤ cs → t.filename = seed.filename →
        isMd t.filename = true →
        ((ctxStep cs seed t dl st).2.2 = true
          ↔ ∃ p ∈ md_headers, (seed.metadata.lookup p.2).isSome = true
              ∧ t.metadata.lookup p.2 ≠ seed.metadata.lookup p.2))
    ∧ (∀ (db : List Row) (cs : Nat) (maxId minId : Int) (st : AccState)
          (seed : Row) (x : Int) (r : Row),
        (x, r) ∈ (expandSeed db cs maxId minId st seed).idMap →
        (x, r) ∈ (recordSeed st seed).idMap
          ∨ (r.filename = seed.filename
              ∧ (isMd r.filename = true → mdConflict seed r = false))) := by
  constructor
  · intro cs seed t dl st hbudget hfile hmd
    rw [ctxStep_md_iff cs seed t dl st hbudget hfile hmd]
    exact mdConflict_iff seed t
  · intro db cs maxId minId st seed x r hmem
    have h := expandLoop_inv db cs maxId minId seed
        (fun _ st' => ∀ q ∈ st'.idMap, q ∈ (recordSeed st seed).idMap
          ∨ (q.2.filename = seed.filename
              ∧ (isMd q.2.filename = true → mdConflict seed q.2 = false)))
        (fun t _ dl' st' hP => by
          rcases ctxStep_cases cs seed t dl' st' with hc | ⟨hf, _, hmd2, hc⟩
          · rw [hc]; exact hP
          · rw [hc]
            intro q hq
            rcases List.mem_cons.mp hq with rfl | hq2
            · exact Or.inr ⟨hf, hmd2⟩
            · exact hP q hq2)
        (pyRange 10 (maxId + 20) 20) (seed.id - 1) (seed.id + 1)
        seed.document.length (recordSeed st seed)
        (fun q hq => Or.inl hq)
    exact h (x, r) hmem

def c4seedW : Row := ⟨1, "s", "doc.md", [("Header 1", "A")], 0⟩

def c4candW : Row := ⟨2, "t", "doc.md", [("Header 1", "B")], 1⟩

/-- Witness for `C4_markdown_heading_rule` at a concrete markdown seed
and candidate disagreeing on `Header 1`, and at a concrete `id_map`
entry of a one-row expansion. -/
theorem C4_witness :
    ((ctxStep 100 c4seedW c4candW 1 ⟨[], []⟩).2.2 = true
      ↔ ∃ p ∈ md_headers, (c4seedW.metadata.lookup p.2).isSome = true
          ∧ c4candW.metadata.lookup p.2 ≠ c4seedW.metadata.lookup p.2)
    ∧ ((1, c4seedW) ∈ (recordSeed ⟨[], []⟩ c4seedW).idMap
        ∨ (c4seedW.filename = c4seedW.filename
            ∧ (isMd c4seedW.filename = true
                → mdConflict c4seedW c4seedW = false))) :=
  ⟨C4_markdown_heading_rule.1 100 c4seedW c4candW 1 ⟨[], []⟩
      (by decide) (by decide) (by decide),
   C4_markdown_heading_rule.2 [c4seedW] 100 1 1 ⟨[], []⟩ c4seedW 1 c4seedW
      (by decide)⟩

/-! ### C5: the distance-priority pick of the merge-walk -/

/-- C5: at a step of the merge-walk where both sides still have an
available candidate, the side with the smaller distance is picked
(`pickRight` is the walk's selection function), and on equal distances
the right side is picked. -/
theorem C5_pick_smaller_distance_tie_right (L R : List Row) (i j : Nat)
    (hi : i < L.length) (hj : j < R.length) :
    (pickRight L R i j false false = true ↔ distAt R j ≤ distAt L i)
    ∧ (distAt R j < distAt L i → pickRight L R i j false false = true)
    ∧ (distAt L i < distAt R j → pickRight L R i j false false = false)
    ∧ (distAt R j = distAt L i → pickRight L R i j false false = true) := by
  have hiff : pickRight L R i j false false = true ↔ distAt R j ≤ distAt L i := by
    unfold pickRight
    rw [if_neg (by simp [Nat.not_le.mpr hi]), if_neg (by simp [Nat.not_le.mpr hj])]
    simp
  refine ⟨hiff, fun h => hiff.mpr (Nat.le_of_lt h), fun h => ?_,
    fun h => hiff.mpr (Nat.le_of_eq h)⟩
  by_contra hc
  have := hiff.mp (Bool.eq_true_of_not_eq_false hc)
  omega

def c5L : List Row := [⟨1, "a", "f", [], 5⟩]

def c5R : List Row := [⟨2, "b", "f", [], 3⟩]

/-- Witness for `C5_pick_smaller_distance_tie_right` at one-element
batches with right distance 3 and left distance 5. -/
theorem C5_witness :
    (pickRight c5L c5R 0 0 false false = true
      ↔ distAt c5R 0 ≤ distAt c5L 0)
    ∧ (distAt c5R 0 < distAt c5L 0 → pickRight c5L c5R 0 0 false false = true)
    ∧ (distAt c5L 0 < distAt c5R 0 → pickRight c5L c5R 0 0 false false = false)
    ∧ (distAt c5R 0 = distAt c5L 0 → pickRight c5L c5R 0 0 false false = true) :=
  C5_pick_smaller_distance_tie_right c5L c5R 0 0 (by decide) (by decide)

/-! ### C6: duplicates and the order of the checks -/

/-- C6 (amended): a candidate whose id is already in the accumulation
set is skipped — no length added, its side stays alive — provided it
first passes the budget, same-document and heading checks, because
those checks precede the duplicate test; a duplicate failing one of
them is rejected and exhausts its side like any other candidate (see
the counterexample). -/
theorem C6_duplicate_skip (cs : Nat) (seed t : Row) (dl : Nat)
    (st : AccState) (hdup : t.id ∈ st.idSet)
    (hbudget : dl + t.document.length ≤ cs)
    (hfile : t.filename = seed.filename)
    (hmd : isMd t.filename = true → mdConflict seed t = false) :
    ctxStep cs seed t dl st = (dl, st, false) := by
  have h1 : ¬(cs < dl + t.document.length ∨ t.filename ≠ seed.filename) := by
    push_neg
    exact ⟨by omega, hfile⟩
  have h2 : ¬(isMd t.filename = true ∧ mdConflict seed t = true) := by
    rintro ⟨ha, hb⟩
    rw [hmd ha] at hb
    exact Bool.false_ne_true hb
  unfold ctxStep
  rw [if_neg h1, if_neg h2, if_pos hdup]

def c6s2 : Row := ⟨100, xChars 50, "a.txt", [], 1⟩

def c6s1 : Row := ⟨101, xChars 60, "a.txt", [], 0⟩

def c6n : Row := ⟨102, xChars 10, "a.txt", [], 2⟩

def c6p : Row := ⟨103, xChars 40, "a.txt", [], 3⟩

def c6db : List Row := [c6s2, c6s1, c6n, c6p]

/-- Witness for `C6_duplicate_skip`: a candidate already present in the
set, fitting the budget and the seed's file, is skipped with the side
kept alive. -/
theorem C6_witness :
    ctxStep 100 c6s2 c6n 50 ⟨[102], [(102, c6n)]⟩
      = (50, ⟨[102], [(102, c6n)]⟩, false) :=
  C6_duplicate_skip 100 c6s2 c6n 50 ⟨[102], [(102, c6n)]⟩
    (by decide) (by decide) (by decide) (by decide)

/-- C6 counterexample: chunk 101 is in the accumulation set after the
first seed's expansion, yet when the second seed's merge-walk picks it,
the budget check (which precedes the duplicate test) rejects it and
exhausts the right side: expansion stops there, and chunk 103 — which
would fit the second seed's remaining budget — is never absorbed. -/
theorem C6_counterexample :
    c6s1.id ∈ (contextExpand c6db 100 (maxIdOf c6db) (minIdOf c6db)
        [c6s1]).idSet
    ∧ (ctxStep 100 c6s2 c6s1 c6s2.document.length
        (recordSeed (contextExpand c6db 100 (maxIdOf c6db) (minIdOf c6db)
          [c6s1]) c6s2)).2.2 = true
    ∧ c6p.id ∉ (contextExpand c6db 100 (maxIdOf c6db) (minIdOf c6db)
        [c6s1, c6s2]).idSet
    ∧ c6s2.document.length + c6p.document.length ≤ 100 := by
  decide

/-! ### C7: gateway read failures during expansion -/

theorem pyRange_widths_head (maxId : Int) (h : 0 ≤ maxId) :
    ∃ ws, pyRange 10 (maxId + 20) 20 = 10 :: ws := by
  obtain ⟨k, hk⟩ : ∃ k, ((maxId + 20 - 10 + 20 - 1) / 20).toNat = k + 1 := by
    refine ⟨((maxId + 20 - 10 + 20 - 1) / 20).toNat - 1, ?_⟩
    omega
  refine ⟨((List.range k).map Nat.succ).map
    (fun (n : Nat) => 10 + 20 * (n : Int)), ?_⟩
  unfold pyRange
  rw [hk, List.range_succ_eq_map, List.map_cons]
  norm_num [List.map_map]

theorem expandLoopE_fail (e : String) (cs : Nat) (maxId minId : Int)
    (seed : Row) (w : Int) (ws : List Int) (lastL lastR : Int) (dl : Nat)
    (st : AccState) (h : ¬(lastL < minId ∧ lastR > maxId)) :
    expandLoopE (fun _ _ _ => .error e) cs maxId minId seed (w :: ws)
      lastL lastR dl st = .error e := by
  unfold expandLoopE
  rw [if_neg h]

/-- C7 (amended): a failed gateway range read during a seed's expansion
is not caught anywhere in the search: as soon as the first read of the
seed's first widening pass fails, the whole query fails with that
error — the seed is not degraded to "seed chunk only" and no document
list is produced for the remaining seeds. -/
theorem C7_gateway_error_fails_whole_query (e : String) (cs : Nat)
    (maxId minId : Int) (seed : Row) (rest : List Row) (st : AccState)
    (hmax : 0 ≤ maxId)
    (hbreak : ¬(seed.id - 1 < minId ∧ seed.id + 1 > maxId)) :
    contextSearchE (fun _ _ _ => .error e) cs maxId minId (seed :: rest) st
      = .error e := by
  obtain ⟨ws, hws⟩ := pyRange_widths_head maxId hmax
  unfold contextSearchE
  rw [hws, expandLoopE_fail e cs maxId minId seed 10 ws _ _ _ _ hbreak]

def gwDown : Int → Int → Bool → Except String (List Row) :=
  fun lo _ _ => if lo < 30 then .ok [] else .error "read failed"

def c7a : Row := ⟨10, "x", "a.txt", [], 0⟩

def c7b : Row := ⟨50, "y", "a.txt", [], 1⟩

/-- C7 counterexample: with a gateway that serves the first seed's
ranges but fails on the second seed's, the one-seed query succeeds,
yet the two-seed query returns the error instead of a document list —
the failing seed is not degraded to itself and the surviving seed's
result is lost. -/
theorem C7_counterexample :
    contextSearchE gwDown 100 50 1 [c7a] ⟨[], []⟩
      = .ok ⟨[10], [(10, c7a)]⟩
    ∧ contextSearchE gwDown 100 50 1 [c7a, c7b] ⟨[], []⟩
      = .error "read failed" :=
  ⟨rfl, rfl⟩

/-- Witness for `C7_gateway_error_fails_whole_query` at a concrete
always-failing gateway and a single seed. -/
theorem C7_witness :
    contextSearchE (fun _ _ _ => .error "down") 100 50 1 [c7b] ⟨[], []⟩
      = .error "down" :=
  C7_gateway_error_fails_whole_query "down" 100 50 1 c7b [] ⟨[], []⟩
    (by decide) (by decide)

/-! ### C8: seeds whose own text exceeds the budget -/

theorem subset_setInsert (x : Int) (l : List Int) : l ⊆ setInsert x l :=
  fun _y hy => mem_setInsert.mpr (Or.inr hy)

theorem ctxStep_frozen (cs : Nat) (seed t : Row) (dl : Nat) (st : AccState)
    (h : cs < dl) :
    (ctxStep cs seed t dl st).1 = dl ∧ (ctxStep cs seed t dl st).2.1 = st := by
  unfold ctxStep
  rw [if_pos (Or.inl (by omega))]
  exact ⟨rfl, rfl⟩

theorem expandSeed_idSet_mono (db : List Row) (cs : Nat) (maxId minId : Int)
    (st : AccState) (seed : Row) :
    (recordSeed st seed).idSet ⊆ (expandSeed db cs maxId minId st seed).idSet := by
  have h := expandLoop_inv db cs maxId minId seed
      (fun _ st' => (recordSeed st seed).idSet ⊆ st'.idSet)
      (fun t _ dl' st' hP => by
        rcases ctxStep_idSet_cases cs seed t dl' st' with hc | hc
        · rw [hc]; exact hP
        · rw [hc]; exact hP.trans (subset_setInsert t.id st'.idSet))
      (pyRange 10 (maxId + 20) 20) (seed.id - 1) (seed.id + 1)
      seed.document.length (recordSeed st seed) (fun _x hx => hx)
  exact h

theorem foldl_expandSeed_mono (db : List Row) (cs : Nat) (maxId minId : Int) :
    ∀ (seeds : List Row) (st : AccState),
      st.idSet ⊆ (seeds.foldl (expandSeed db cs maxId minId) st).idSet := by
  intro seeds
  induction seeds with
  | nil => intro st x hx; exact hx
  | cons a as ih =>
    intro st x hx
    simp only [List.foldl]
    apply ih (expandSeed db cs maxId minId st a)
    exact expandSeed_idSet_mono db cs maxId minId st a
      (subset_setInsert a.id st.idSet hx)

theorem mem_foldl_expandSeed (db : List Row) (cs : Nat) (maxId minId : Int) :
    ∀ (seeds : List Row) (st : AccState) (s : Row), s ∈ seeds →
      s.id ∈ (seeds.foldl (expandSeed db cs maxId minId) st).idSet := by
  intro seeds
  induction seeds with
  | nil => intro st s hs; exact absurd hs (List.not_mem_nil s)
  | cons a as ih =>
    intro st s hs
    simp only [List.foldl]
    rcases List.mem_cons.mp hs with rfl | hs2
    · apply foldl_expandSeed_mono db cs maxId minId as
      exact expandSeed_idSet_mono db cs maxId minId st s
        (mem_setInsert.mpr (Or.inl rfl))
    · exact ih (expandSeed db cs maxId minId st a) s hs2

theorem runsAux_flatten : ∀ (ys : List Int) (prev : Int) (cur : List Int),
    (runsAux ys prev cur).flatten = cur.reverse ++ ys := by
  intro ys
  induction ys with
  | nil => intro prev cur; simp [runsAux]
  | cons y ys ih =>
    intro prev cur
    unfold runsAux
    split
    · rw [ih y (y :: cur)]
      simp
    · simp [ih y [y]]

theorem runsOf_flatten : ∀ l : List Int, (runsOf l).flatten = l := by
  intro l
  cases l with
  | nil => rfl
  | cons x xs => simp [runsOf, runsAux_flatten]

theorem mem_merge_ids_flatten {x : Int} {l : List Int} :
    x ∈ (merge_ids l).flatten ↔ x ∈ l := by
  rw [merge_ids, runsOf_flatten, mem_sortBy]

/-- C8 (amended): a seed whose own text exceeds the budget absorbs
nothing on its own behalf — its widening loop leaves `docs_len` and the
accumulation state exactly as recorded — and every seed's id is
recorded in the state and appears in the merged output runs; but such a
seed is emitted as a single-chunk document only if no other seed
contributes an adjacent id (see the counterexample, where it shares its
run — and its assembled document — with another seed's chunk). -/
theorem C8_oversized_seed (db : List Row) (cs : Nat) (maxId minId : Int)
    (st : AccState) (seed : Row) (seeds : List Row) (s : Row)
    (hover : cs < seed.document.length) (hs : s ∈ seeds) :
    expandSeedDL db cs maxId minId st seed
      = (seed.document.length, recordSeed st seed)
    ∧ s.id ∈ (contextExpand db cs maxId minId seeds).idSet
    ∧ s.id ∈ (merge_ids (contextExpand db cs maxId minId seeds).idSet).flatten := by
  refine ⟨?_, ?_, ?_⟩
  · have h := expandLoop_inv db cs maxId minId seed
        (fun dl' st' => dl' = seed.document.length ∧ st' = recordSeed st seed)
        (fun t _ dl' st' hP => by
          have hlt : cs < dl' := by rw [hP.1]; exact hover
          have hfroz := ctxStep_frozen cs seed t dl' st' hlt
          exact ⟨hfroz.1.trans hP.1, hfroz.2.trans hP.2⟩)
        (pyRange 10 (maxId + 20) 20) (seed.id - 1) (seed.id + 1)
        seed.document.length (recordSeed st seed) ⟨rfl, rfl⟩
    exact Prod.ext h.1 h.2
  · exact mem_foldl_expandSeed db cs maxId minId seeds ⟨[], []⟩ s hs
  · rw [mem_merge_ids_flatten]
    exact mem_foldl_expandSeed db cs maxId minId seeds ⟨[], []⟩ s hs

def c8big : Row := ⟨1, xChars 200, "a.txt", [], 0⟩

def c8small : Row := ⟨2, xChars 10, "a.txt", [], 1⟩

def c8db : List Row := [c8big, c8small]

set_option maxRecDepth 8000 in
/-- C8 counterexample: seed id 1 exceeds the budget (200 > 100), and a
second seed owns the adjacent id 2; the merge step produces the single
run `[1, 2]`, so the oversized seed is emitted inside a two-chunk
document of length 210, not as a single-chunk document. -/
theorem C8_counterexample :
    100 < c8big.document.length
    ∧ merge_ids (contextExpand c8db 100 (maxIdOf c8db) (minIdOf c8db)
        [c8big, c8small]).idSet = [[1, 2]]
    ∧ (my_similarity_search_context c8db 100 [c8big, c8small]).map
        (fun d => d.1.length) = [210] := by
  decide

set_option maxRecDepth 8000 in
/-- Witness for `C8_oversized_seed` at the concrete oversized seed of
the counterexample database. -/
theorem C8_witness :
    expandSeedDL c8db 100 2 1 ⟨[], []⟩ c8big
      = (c8big.document.length, recordSeed ⟨[], []⟩ c8big)
    ∧ c8big.id ∈ (contextExpand c8db 100 2 1 [c8big]).idSet
    ∧ c8big.id ∈ (merge_ids (contextExpand c8db 100 2 1 [c8big]).idSet).flatten :=
  C8_oversized_seed c8db 100 2 1 ⟨[], []⟩ c8big [c8big] c8big
    (by decide) (by decide)

/-! ### C9: filter values in the SQL text -/

/-- C9 (what the code does): the SQL text built by
`get_search_result_from_database` is not independent of the filter
values — each value is interpolated verbatim into the `WHERE` clause of
the query string, so two searches with the same filter key and
different values produce different SQL texts.  Only `:embedding` and
`:k` are bound parameters. -/
theorem C9_filter_values_interpolated :
    filter_condition (some [("source", "a.txt")])
      = "WHERE metadata->>" ++ pyQuote ++ "source" ++ pyQuote
        ++ " = " ++ pyQuote ++ "a.txt" ++ pyQuote
    ∧ sql_query_text "kb" (some [("source", "a.txt")])
      ≠ sql_query_text "kb" (some [("source", "b.txt")]) := by
  exact ⟨rfl, by decide⟩

/-! ### C10: the collection-binding checks -/

/-- C10: every public store operation that touches the collection —
the context similarity search, `add_texts`, `delete`, `list_docs` —
fails immediately with the binding error when no collection has been
bound, whatever its other arguments are (in particular independently of
the embedding function and of anything the store could have returned,
so no read or write precedes the check). -/
theorem C10_unbound_collection_raises :
    (∀ (cs : Nat) (seeds : List Row),
        my_similarity_search_op none cs seeds = .error bindErr)
    ∧ (∀ (embed : List String → List (List Int)) (texts : List String)
          (metadatas : List (List (String × String))) (ids : List String),
        add_texts_op none embed texts metadatas ids = .error bindErr)
    ∧ (∀ ids, delete_op none ids = .error bindErr)
    ∧ list_docs_op none = .error bindErr :=
  ⟨fun _ _ => rfl, fun _ _ _ _ => rfl, fun _ => rfl, rfl⟩

/-! ### Consistency of the fallible-gateway variant with the pure one -/

theorem expandLoopE_dbGateway (db : List Row) (cs : Nat) (maxId minId : Int)
    (seed : Row) :
    ∀ (ws : List Int) (lastL lastR : Int) (dl : Nat) (st : AccState),
      expandLoopE (dbGateway db) cs maxId minId seed ws lastL lastR dl st
        = .ok (expandLoop db cs maxId minId seed ws lastL lastR dl st) := by
  intro ws
  induction ws with
  | nil => intro lastL lastR dl st; rfl
  | cons w ws ih =>
    intro lastL lastR dl st
    unfold expandLoopE expandLoop
    simp only [dbGateway, Bool.cond_true, Bool.cond_false]
    split
    · rfl
    · split
      · rfl
      · exact ih _ _ _ _

/-! ### Adequacy of the merge-walk's fuel

`ctxWalk` is structurally recursive on a fuel argument; the following
lemmas show the fuel never matters once it reaches the number of still
available batch elements, so `expandLoop`'s choice of
`L.length + R.length` computes exactly the source's unbounded `while`
loop. -/

/-- Number of batch elements the walk can still consume. -/
def walkAvail (L R : List Row) (i j : Nat) (lD rD : Bool) : Nat :=
  (cond lD 0 (L.length - i)) + (cond rD 0 (R.length - j))

theorem walkAvail_pos_iff (L R : List Row) (i j : Nat) (lD rD : Bool) :
    0 < walkAvail L R i j lD rD
      ↔ ((lD = false ∧ i < L.length) ∨ (rD = false ∧ j < R.length)) := by
  cases lD <;> cases rD
  case false.false => simp [walkAvail]
  case false.true => simp [walkAvail]
  case true.false => simp [walkAvail]
  case true.true => simp [walkAvail]

/-- One-step unfolding of the merge-walk at positive fuel. -/
theorem ctxWalk_succ (cs : Nat) (seed : Row) (L R : List Row)
    (fuel i j : Nat) (lD rD : Bool) (dl : Nat) (st : AccState) :
    ctxWalk cs seed L R (fuel + 1) i j lD rD dl st
      = if (lD = false ∧ i < L.length) ∨ (rD = false ∧ j < R.length) then
          match (if pickRight L R i j lD rD then R[j]? else L[i]?) with
          | none => (dl, st, lD, rD)
          | some t =>
            ctxWalk cs seed L R fuel
              (if pickRight L R i j lD rD then i else i + 1)
              (if pickRight L R i j lD rD then j + 1 else j)
              (if pickRight L R i j lD rD then lD
                else (ctxStep cs seed t dl st).2.2)
              (if pickRight L R i j lD rD then (ctxStep cs seed t dl st).2.2
                else rD)
              (ctxStep cs seed t dl st).1 (ctxStep cs seed t dl st).2.1
        else (dl, st, lD, rD) := rfl

theorem pickRight_true_right_avail (L R : List Row) (i j : Nat)
    (lD rD : Bool)
    (hguard : (lD = false ∧ i < L.length) ∨ (rD = false ∧ j < R.length))
    (h : pickRight L R i j lD rD = true) : rD = false ∧ j < R.length := by
  unfold pickRight at h
  by_cases h1 : lD = true ∨ L.length ≤ i
  · rcases hguard with hg | hg
    · rcases h1 with h1 | h1
      · rw [hg.1] at h1
        exact absurd h1 (by simp)
      · exact absurd h1 (by omega)
    · exact hg
  · rw [if_neg h1] at h
    by_cases h2 : rD = true ∨ R.length ≤ j
    · rw [if_pos h2] at h
      exact absurd h (by simp)
    · push_neg at h2
      cases rD
      · exact ⟨rfl, by omega⟩
      · exact absurd rfl h2.1

theorem pickRight_false_left_avail (L R : List Row) (i j : Nat)
    (lD rD : Bool) (h : pickRight L R i j lD rD = false) :
    lD = false ∧ i < L.length := by
  unfold pickRight at h
  by_cases h1 : lD = true ∨ L.length ≤ i
  · rw [if_pos h1] at h
    exact absurd h (by simp)
  · push_neg at h1
    cases lD
    · exact ⟨rfl, by omega⟩
    · exact absurd rfl h1.1

theorem ctxWalk_fuel_eq (cs : Nat) (seed : Row) (L R : List Row) :
    ∀ (fuel i j : Nat) (lD rD : Bool) (dl : Nat) (st : AccState),
      walkAvail L R i j lD rD ≤ fuel →
      ctxWalk cs seed L R (fuel + 1) i j lD rD dl st
        = ctxWalk cs seed L R fuel i j lD rD dl st := by
  intro fuel
  induction fuel with
  | zero =>
    intro i j lD rD dl st h
    have hg : ¬((lD = false ∧ i < L.length) ∨ (rD = false ∧ j < R.length)) := by
      rw [← walkAvail_pos_iff]
      omega
    rw [ctxWalk_succ, if_neg hg]
    rfl
  | succ n ih =>
    intro i j lD rD dl st h
    by_cases hg : (lD = false ∧ i < L.length) ∨ (rD = false ∧ j < R.length)
    · rw [ctxWalk_succ, ctxWalk_succ, if_pos hg, if_pos hg]
      by_cases hpick : pickRight L R i j lD rD = true
      · have hav := pickRight_true_right_avail L R i j lD rD hg hpick
        simp only [hpick, if_true]
        cases hm : R[j]? with
        | none => rfl
        | some t =>
          apply ih
          rcases hav with ⟨hrD, hj⟩
          subst hrD
          cases hlD : lD <;>
            cases hs : (ctxStep cs seed t dl st).2.2 <;>
              simp only [walkAvail, hlD, cond_true, cond_false] at h ⊢ <;>
                omega
      · have hpick2 : pickRight L R i j lD rD = false :=
          Bool.eq_false_iff.mpr hpick
        have hav := pickRight_false_left_avail L R i j lD rD hpick2
        simp only [hpick2, if_false, Bool.false_eq_true]
        cases hm : L[i]? with
        | none => rfl
        | some t =>
          apply ih
          rcases hav with ⟨hlD, hi⟩
          subst hlD
          cases hrD : rD <;>
            cases hs : (ctxStep cs seed t dl st).2.2 <;>
              simp only [walkAvail, hrD, cond_true, cond_false] at h ⊢ <;>
                omega
    · rw [ctxWalk_succ, ctxWalk_succ, if_neg hg, if_neg hg]

theorem ctxWalk_fuel_ge (cs : Nat) (seed : Row) (L R : List Row)
    (fuel k i j : Nat) (lD rD : Bool) (dl : Nat) (st : AccState)
    (h : walkAvail L R i j lD rD ≤ fuel) :
    ctxWalk cs seed L R (fuel + k) i j lD rD dl st
      = ctxWalk cs seed L R fuel i j lD rD dl st := by
  induction k with
  | zero => rfl
  | succ m ihm =>
    have hstep : fuel + (m + 1) = (fuel + m) + 1 := by omega
    rw [hstep, ctxWalk_fuel_eq cs seed L R (fuel + m) i j lD rD dl st
      (by omega), ihm]
